import Mathlib

/-
Verification of the code-resolution engine in src/utils/validation.py.

The embedding models Python strings as lists of characters (Str), Python
dicts as insertion-ordered association lists with overwrite-in-place
semantics (dictInsert / lookupA), and the XML input as structured trees
(PcsTableElem and friends).  Every definition mirrors the corresponding
Python function line by line; Python truthiness of optional strings is
modelled by pyTruthy.
-/

namespace PCS

/-- A Python string, modelled as its sequence of characters. -/
abbrev Str := List Char

/-- Conversion from a Lean string literal to the model type. -/
def strOf (s : String) : Str := s.toList

/-- ASCII lower-casing of one character (models str.lower on our data). -/
def lowerChar (c : Char) : Char :=
  if 65 ≤ c.toNat ∧ c.toNat ≤ 90 then Char.ofNat (c.toNat + 32) else c

/-- Models str.lower. -/
def pyLower (s : Str) : Str := s.map lowerChar

/-- Whitespace test used by str.strip. -/
def isWSChar (c : Char) : Bool := c == ' ' || c == '\t' || c == '\r' || c == '\n'

/-- Models str.strip (drop whitespace from both ends). -/
def pyStrip (s : Str) : Str :=
  ((s.dropWhile isWSChar).reverse.dropWhile isWSChar).reverse

/-- Truthiness of an optional string, as in a Python `if s:` test. -/
def pyTruthy : Option Str → Bool
  | none => false
  | some s => !s.isEmpty

/-- Models _eq from validation.py: strip then lower both sides, compare. -/
def strEq (a b : Str) : Bool := pyLower (pyStrip a) == pyLower (pyStrip b)

/-- Boolean prefix test on character lists. -/
def isPrefixL : Str → Str → Bool
  | [], _ => true
  | _ :: _, [] => false
  | a :: as, b :: bs => a == b && isPrefixL as bs

/-- Boolean substring test: does needle occur inside hay (Python `in`). -/
def infixOf (needle : Str) : Str → Bool
  | [] => isPrefixL needle []
  | hay@(_ :: t) => isPrefixL needle hay || infixOf needle t

/-- Models _contains from validation.py: _contains(a, b) is `b in a` after
strip+lower of both strings. -/
def strContains (a b : Str) : Bool :=
  infixOf (pyLower (pyStrip b)) (pyLower (pyStrip a))

/-- One code/text label, as produced by PCSTables._labels. -/
structure AxisLabel where
  code : Str
  text : Str
deriving DecidableEq, Repr

/-- Insertion-ordered dictionary insert with Python overwrite semantics:
an existing key keeps its position and gets the new value, a new key is
appended at the end. -/
def dictInsert (m : List (Str × α)) (k : Str) (v : α) : List (Str × α) :=
  match m with
  | [] => [(k, v)]
  | (k0, v0) :: rest =>
      if k0 == k then (k0, v) :: rest else (k0, v0) :: dictInsert rest k v

/-- Dictionary lookup on the association-list model. -/
def lookupA (m : List (Str × α)) (k : Str) : Option α :=
  match m with
  | [] => none
  | (k0, v0) :: rest => if k0 == k then some v0 else lookupA rest k

/-- Header axis information gathered by PCSTables._axis_info. -/
structure AxisInfo where
  title : Str
  definition : Str
  labels : List AxisLabel
deriving DecidableEq, Repr

/-- A pcsRow in the store: mapping from axis position to its label options,
exactly the row_dict built by PCSTables._parse. -/
abbrev Row := List (Str × List AxisLabel)

/-- Label options of one axis position of a row (row.get(pos, [])). -/
def rowGet (r : Row) (pos : Str) : List AxisLabel := (lookupA r pos).getD []

/-- An axis element of the XML source (pos attribute, title, definition,
label children). -/
structure AxisElem where
  pos : Str
  title : Str
  definition : Str
  labels : List AxisLabel
deriving DecidableEq, Repr

/-- A pcsRow element of the XML source. -/
structure PcsRowElem where
  axes : List AxisElem
deriving DecidableEq, Repr

/-- A pcsTable element of the XML source: header axes and rows. -/
structure PcsTableElem where
  axes : List AxisElem
  pcsRows : List PcsRowElem
deriving DecidableEq, Repr

/-- Models PCSTables._labels: label texts are stripped, codes kept as-is. -/
def labelsOf (ls : List AxisLabel) : List AxisLabel :=
  ls.map (fun l => ⟨l.code, pyStrip l.text⟩)

/-- Models PCSTables._axis_info: a dict from axis pos to its info. -/
def axisInfo (axes : List AxisElem) : List (Str × AxisInfo) :=
  axes.foldl
    (fun m ax => dictInsert m ax.pos ⟨pyStrip ax.title, pyStrip ax.definition, labelsOf ax.labels⟩)
    []

/-- Models lab = (info.get(pos, {}).get(labels) or [{}])[0] followed by
lab.get(code, '') / lab.get(text, ''): the first label of a header axis,
or an empty label if the axis or its labels are missing. -/
def hdrLabel (info : List (Str × AxisInfo)) (pos : Str) : AxisLabel :=
  match lookupA info pos with
  | none => ⟨[], []⟩
  | some i =>
      match i.labels with
      | [] => ⟨[], []⟩
      | l :: _ => l

/-- The definition text of a header axis (used for axis 3). -/
def hdrDef (info : List (Str × AxisInfo)) (pos : Str) : Str :=
  match lookupA info pos with
  | none => []
  | some i => i.definition

/-- One table of the store, as built by PCSTables._parse. -/
structure TableEntry where
  section_ : AxisLabel
  body_system : AxisLabel
  operation : AxisLabel
  operationDef : Str
  rows : List Row
deriving DecidableEq, Repr

/-- The row_dict built for one pcsRow element. -/
def rowDict (r : PcsRowElem) : Row :=
  r.axes.foldl (fun m ax => dictInsert m ax.pos (labelsOf ax.labels)) []

/-- Models the per-table body of PCSTables._parse: extract the first label
of header axes 1..3; if any of the three codes is empty the entry is
dropped, otherwise it is keyed by the concatenation of the three codes.
Rows keep every axis position found in the source; a row is kept exactly
when its dict is non-empty. -/
def parseTable (pt : PcsTableElem) : Option (Str × TableEntry) :=
  let info := axisInfo pt.axes
  let l1 := hdrLabel info (strOf "1")
  let l2 := hdrLabel info (strOf "2")
  let l3 := hdrLabel info (strOf "3")
  if l1.code.isEmpty || l2.code.isEmpty || l3.code.isEmpty then none
  else
    some (l1.code ++ l2.code ++ l3.code,
      { section_ := l1
        body_system := l2
        operation := l3
        operationDef := hdrDef info (strOf "3")
        rows := pt.pcsRows.filterMap (fun r =>
          let d := rowDict r
          if d.isEmpty then none else some d) })

/-- One step of the store build: a parsed table is inserted under its key,
overwriting any earlier table with the same key. -/
def parseStep (m : List (Str × TableEntry)) (pt : PcsTableElem) : List (Str × TableEntry) :=
  match parseTable pt with
  | none => m
  | some ke => dictInsert m ke.1 ke.2

/-- Models PCSTables._parse over the whole source: tables are inserted into
the store dict in order, a duplicate key overwriting the earlier value. -/
def pcsParse (xs : List PcsTableElem) : List (Str × TableEntry) :=
  xs.foldl parseStep []

/-- Models PCSTables.find_roots: section code compared exactly, body-system
and operation texts compared case-insensitively when the filter is truthy. -/
def findRoots (tables : List (Str × TableEntry)) (sectionCode : Str)
    (bsName opName : Option Str) : List Str :=
  tables.filterMap (fun kt =>
    if kt.2.section_.code == sectionCode
        && (if pyTruthy bsName then strEq kt.2.body_system.text (bsName.getD []) else true)
        && (if pyTruthy opName then strEq kt.2.operation.text (opName.getD []) else true)
    then some kt.1 else none)

/-- Models the inner pick function of PCSTables.best_match_row. -/
def pick (options : List AxisLabel) (want : Option Str) : Option AxisLabel × Nat :=
  match options with
  | [] => (none, 0)
  | o0 :: _ =>
      if pyTruthy want then
        let w := want.getD []
        match options.find? (fun o => strEq o.text w) with
        | some o => (some o, 3)
        | none =>
            match options.find? (fun o => strContains o.text w || strContains w o.text) with
            | some o => (some o, 2)
            | none => (some o0, 0)
      else
        match options.find? (fun o => strEq o.text (strOf "No Device")) with
        | some o => (some o, 1)
        | none =>
            match options.find? (fun o => strEq o.text (strOf "No Qualifier")) with
            | some o => (some o, 1)
            | none => (some o0, 0)

/-- The four per-axis picks of one row (the choice dict of best_match_row). -/
structure Choice where
  p4 : Option AxisLabel
  p5 : Option AxisLabel
  p6 : Option AxisLabel
  p7 : Option AxisLabel
deriving DecidableEq, Repr

/-- The choice computed for one row by best_match_row. -/
def rowChoice (bp ap dv qu : Option Str) (r : Row) : Choice :=
  ⟨(pick (rowGet r (strOf "4")) bp).1, (pick (rowGet r (strOf "5")) ap).1,
   (pick (rowGet r (strOf "6")) dv).1, (pick (rowGet r (strOf "7")) qu).1⟩

/-- The aggregate score of one row: the sum of the four axis pick scores. -/
def rowScore (bp ap dv qu : Option Str) (r : Row) : Nat :=
  (pick (rowGet r (strOf "4")) bp).2 + (pick (rowGet r (strOf "5")) ap).2 +
  (pick (rowGet r (strOf "6")) dv).2 + (pick (rowGet r (strOf "7")) qu).2

/-- Seven-axis code assembled from a table header and four picked labels. -/
def mkCode (t : TableEntry) (a b d e : AxisLabel) : Str :=
  t.section_.code ++ t.body_system.code ++ t.operation.code ++
  a.code ++ b.code ++ d.code ++ e.code

/-- Fully-qualified code of a choice: emitted only when all four axes
produced a pick. -/
def choiceCode (t : TableEntry) (c : Choice) : Option Str :=
  match c.p4, c.p5, c.p6, c.p7 with
  | some a, some b, some d, some e => some (mkCode t a b d e)
  | _, _, _, _ => none

/-- One alternate record of best_match_row. -/
structure Alt where
  code : Option Str
  score : Nat
  labels : Choice
deriving DecidableEq, Repr

/-- The running-best fold of best_match_row: the score of each row is
compared strictly against the best score so far (initially -1), so the
first row attaining the maximum is kept. -/
def bmFold (f : Row → Nat) (g : Row → Choice) :
    List Row → Int → Option Choice → Int × Option Choice
  | [], s, c => (s, c)
  | r :: rest, s, c =>
      if (f r : Int) > s then bmFold f g rest (f r) (some (g r))
      else bmFold f g rest s c

/-- Final return step of best_match_row: a code and the chosen labels are
returned only when the best choice produced all four picks. -/
def bmrPost (t : TableEntry) (bc : Option Choice) (alts : List Alt) :
    Option Str × Option Choice × List Alt :=
  match bc with
  | none => (none, none, alts)
  | some c =>
      match choiceCode t c with
      | some code => (some code, some c, alts)
      | none => (none, none, alts)

/-- Models PCSTables.best_match_row.  Returns the fully-qualified code (when
the best row produced all four picks), the chosen labels (empty otherwise),
and the alternates list with one record per row. -/
def best_match_row (tables : List (Str × TableEntry)) (rootKey : Str)
    (bp ap dv qu : Option Str) : Option Str × Option Choice × List Alt :=
  match lookupA tables rootKey with
  | none => (none, none, [])
  | some t =>
      bmrPost t (bmFold (rowScore bp ap dv qu) (rowChoice bp ap dv qu) t.rows (-1) none).2
        (t.rows.map (fun r =>
          ⟨choiceCode t (rowChoice bp ap dv qu r), rowScore bp ap dv qu r,
           rowChoice bp ap dv qu r⟩))

/-- One mainTerm of the index source: a title and its code leads. -/
structure MainTerm where
  title : Str
  codes : List Str
deriving DecidableEq, Repr

/-- Inner code-collection loop of PCSIndex.find_leads_in_text: appends the
stripped, non-empty, not-yet-seen codes of one term, reporting whether the
limit was reached (which ends the whole scan). -/
def addCodes (limit : Nat) : List Str → List Str → List Str × Bool
  | [], leads => (leads, false)
  | c :: cs, leads =>
      let c2 := pyStrip c
      if !c2.isEmpty && !(leads.contains c2) then
        let leads2 := leads ++ [c2]
        if limit ≤ leads2.length then (leads2, true)
        else addCodes limit cs leads2
      else addCodes limit cs leads

/-- Term scan of PCSIndex.find_leads_in_text over the lowered input text. -/
def findLeadsGo (limit : Nat) (t : Str) : List MainTerm → List Str → List Str
  | [], leads => leads
  | mt :: rest, leads =>
      let title := pyStrip mt.title
      if title.isEmpty then findLeadsGo limit t rest leads
      else if infixOf (pyLower title) t then
        let r := addCodes limit mt.codes leads
        if r.2 then r.1 else findLeadsGo limit t rest r.1
      else findLeadsGo limit t rest leads

/-- Models PCSIndex.find_leads_in_text. -/
def find_leads_in_text (terms : List MainTerm) (text : Str) (limit : Nat) : List Str :=
  findLeadsGo limit (pyLower text) terms []

/-- Models the BodyPartKey / DeviceKey constructors: keys are stripped and
lowered, mapped names are stripped. -/
def synKeyMap (raw : List (Str × List Str)) : List (Str × List Str) :=
  raw.foldl (fun m kv => dictInsert m (pyLower (pyStrip kv.1)) (kv.2.map pyStrip)) []

/-- Models BodyPartKey.lookup / DeviceKey.lookup: an absent or empty name
gives no candidates, an unknown name is returned unchanged. -/
def synLookup (m : List (Str × List Str)) (name : Option Str) : List Str :=
  match name with
  | none => []
  | some n =>
      if n.isEmpty then []
      else (lookupA m (pyLower (pyStrip n))).getD [n]

/-- Models the DeviceAggregation constructor.  The specific-to-general sets
are modelled as first-seen-ordered duplicate-free lists; the Python set
iteration order is unspecified, and no claim depends on it. -/
def aggMap (recs : List (Str × Str)) : List (Str × List Str) :=
  recs.foldl
    (fun m r =>
      let spec := pyStrip r.1
      let gen := pyStrip r.2
      if spec.isEmpty || gen.isEmpty then m
      else
        match lookupA m spec with
        | none => dictInsert m spec [gen]
        | some l => if l.contains gen then m else dictInsert m spec (l ++ [gen]))
    []

/-- Models DeviceAggregation.generalize: raw-name lookup, empty on a miss. -/
def aggGeneralize (m : List (Str × List Str)) (name : Str) : List Str :=
  (lookupA m name).getD []

/-- The loaded context of TablesContext: each source independently optional. -/
structure TablesContext where
  tables : Option (List (Str × TableEntry))
  index : Option (List MainTerm)
  body_key : Option (List (Str × List Str))
  device_key : Option (List (Str × List Str))
  device_agg : Option (List (Str × List Str))
  loaded : Bool
deriving DecidableEq, Repr

/-- Models TablesContext.load: an absent source simply leaves its slot
unset; loaded records whether the tables source was present. -/
def loadContext (tablesSrc : Option (List PcsTableElem)) (indexSrc : Option (List MainTerm))
    (bpJson devJson : Option (List (Str × List Str)))
    (aggJson : Option (List (Str × Str))) : TablesContext :=
  { tables := tablesSrc.map pcsParse
    index := indexSrc
    body_key := bpJson.map synKeyMap
    device_key := devJson.map synKeyMap
    device_agg := aggJson.map aggMap
    loaded := (tablesSrc.map pcsParse).isSome }

/-- De-duplication dropping empty names, as at the end of _norm_device. -/
def dedupNonEmpty (l : List Str) : List Str :=
  l.foldl (fun out v => if !v.isEmpty && !(out.contains v) then out ++ [v] else out) []

/-- Models _norm_body_part. -/
def norm_body_part (ctx : TablesContext) (name : Option Str) : List Str :=
  match name with
  | none => []
  | some n =>
      if n.isEmpty then []
      else
        match ctx.body_key with
        | some m => let r := synLookup m (some n); if r.isEmpty then [n] else r
        | none => [n]

/-- Models _norm_device: synonym lookup, then aggregation widening, then
de-duplication. -/
def norm_device (ctx : TablesContext) (name : Option Str) : List Str :=
  match name with
  | none => []
  | some n =>
      if n.isEmpty then []
      else
        let candidates :=
          match ctx.device_key with
          | some m => let r := synLookup m (some n); if r.isEmpty then [n] else r
          | none => [n]
        let more :=
          match ctx.device_agg with
          | some mm => candidates.foldl (fun acc c => acc ++ aggGeneralize mm c) []
          | none => []
        dedupNonEmpty (candidates ++ more)

/-- Per-axis component codes or texts of a candidate. -/
structure CompSet where
  section_ : Str
  body_system : Str
  root_operation : Str
  body_part : Option Str
  approach : Option Str
  device : Option Str
  qualifier : Option Str
deriving DecidableEq, Repr

/-- One resolver candidate. -/
structure Candidate where
  pcs_code : Str
  components : CompSet
  labels : CompSet
  score : Nat
  root_key : Str
deriving DecidableEq, Repr

/-- The candidate score of resolve_code: the count of non-empty axis picks. -/
def choiceScore (c : Choice) : Nat :=
  (if c.p4.isSome then 1 else 0) + (if c.p5.isSome then 1 else 0) +
  (if c.p6.isSome then 1 else 0) + (if c.p7.isSome then 1 else 0)

/-- Candidate record construction of resolve_code. -/
def mkCandidate (t : TableEntry) (rt code : Str) (chosen : Choice) : Candidate :=
  { pcs_code := code
    components :=
      { section_ := t.section_.code
        body_system := t.body_system.code
        root_operation := t.operation.code
        body_part := chosen.p4.map (fun l => l.code)
        approach := chosen.p5.map (fun l => l.code)
        device := chosen.p6.map (fun l => l.code)
        qualifier := chosen.p7.map (fun l => l.code) }
    labels :=
      { section_ := t.section_.text
        body_system := t.body_system.text
        root_operation := t.operation.text
        body_part := chosen.p4.map (fun l => l.text)
        approach := chosen.p5.map (fun l => l.text)
        device := chosen.p6.map (fun l => l.text)
        qualifier := chosen.p7.map (fun l => l.text) }
    score := choiceScore chosen
    root_key := rt }

/-- The per-root trial loop of resolve_code: each (body-part, device)
candidate pair is tried, and a trial is kept only when it yields a truthy
code and strictly beats the best trial score so far (initially -1). -/
def trialLoop (tables : List (Str × TableEntry)) (rt : Str) (ap qu : Option Str) :
    List (Option Str × Option Str) → Int → Option (Str × Choice × List Alt) →
      Option (Str × Choice × List Alt)
  | [], _, best => best
  | p :: rest, bestScore, best =>
      match best_match_row tables rt p.1 ap p.2 qu with
      | (some code, some chosen, alts) =>
          if code.isEmpty then trialLoop tables rt ap qu rest bestScore best
          else
            let s := choiceScore chosen
            if (s : Int) > bestScore then
              trialLoop tables rt ap qu rest (s : Int) (some (code, chosen, alts))
            else trialLoop tables rt ap qu rest bestScore best
      | _ => trialLoop tables rt ap qu rest bestScore best

/-- Fallback root harvesting from index leads: first three characters, the
section-0 prefix required, duplicates and keys missing from the store
dropped. -/
def fallbackRoots (tables : List (Str × TableEntry)) (leads : List Str) : List Str :=
  leads.foldl
    (fun roots lead =>
      let rt := lead.take 3
      if isPrefixL (strOf "0") rt && !(roots.contains rt) && (lookupA tables rt).isSome
      then roots ++ [rt] else roots)
    []

/-- The result record of resolve_code. -/
structure ResolveResult where
  ok : Bool
  error : Option Str
  candidates : List Candidate
deriving DecidableEq, Repr

/-- The Cartesian (body-part candidate, device candidate) trial pairs for
one root, body-part candidates iterated in the outer loop; an empty list
degenerates to a single unconstrained slot. -/
def trialPairs (ctx : TablesContext) (bp dv : Option Str) :
    List (Option Str × Option Str) :=
  let bpList := norm_body_part ctx bp
  let dvList := norm_device ctx dv
  let bps : List (Option Str) := if bpList.isEmpty then [none] else bpList.map some
  let dvs : List (Option Str) := if dvList.isEmpty then [none] else dvList.map some
  bps.flatMap (fun b => dvs.map (fun d => (b, d)))

/-- Per-root body of the candidate loop of resolve_code. -/
def buildStep (ctx : TablesContext) (tables : List (Str × TableEntry))
    (bp dv ap qu : Option Str) (acc : List Candidate) (rt : Str) : List Candidate :=
  match trialLoop tables rt ap qu (trialPairs ctx bp dv) (-1) none with
  | none => acc
  | some (code, chosen, _) =>
      match lookupA tables rt with
      | none => acc
      | some t => acc ++ [mkCandidate t rt code chosen]

/-- The candidate-accumulation loop of resolve_code over the root list. -/
def buildCandidates (ctx : TablesContext) (tables : List (Str × TableEntry))
    (bp dv ap qu : Option Str) (roots : List Str) : List Candidate :=
  roots.foldl (buildStep ctx tables bp dv ap qu) []

/-- Sort key of a candidate: the (score, code) pair under lexicographic
order. -/
def keyOf (c : Candidate) : Lex (Nat × Str) := toLex (c.score, c.pcs_code)

/-- Strict comparison of candidates by their sort key. -/
def candLt (a b : Candidate) : Bool := decide (keyOf a < keyOf b)

/-- Stable descending insertion: x is placed before the first element with
a strictly smaller key, after every element with a greater-or-equal key. -/
def insertDesc (x : Candidate) : List Candidate → List Candidate
  | [] => [x]
  | y :: ys => if candLt y x then x :: y :: ys else y :: insertDesc x ys

/-- Models list.sort(key=(score, pcs_code), reverse=True): the stable
descending sort by (score, code); stable sorting has a unique result, so
any stable descending sort is extensionally the Python one. -/
def pySortDesc (l : List Candidate) : List Candidate :=
  l.foldl (fun acc x => insertDesc x acc) []

/-- The root list resolve_code works from: the header match, or, when that
is empty and free text with an index is available, the fallback leads. -/
def resolveRoots (ctx : TablesContext) (tables : List (Str × TableEntry))
    (bs ro nt : Option Str) : List Str :=
  let roots0 := findRoots tables (strOf "0") bs ro
  if roots0.isEmpty && pyTruthy nt then
    match ctx.index with
    | some terms => fallbackRoots tables (find_leads_in_text terms (nt.getD []) 10)
    | none => roots0
  else roots0

/-- Models resolve_code from validation.py. -/
def resolve_code (ctx : TablesContext) (section_name : Str)
    (body_system_name root_operation_name body_part_name approach_name
     device_name qualifier_name note_text : Option Str) : ResolveResult :=
  match ctx.tables with
  | none => { ok := false, error := some (strOf "Tables not loaded."), candidates := [] }
  | some tables =>
      let roots := resolveRoots ctx tables body_system_name root_operation_name note_text
      let cands := buildCandidates ctx tables body_part_name device_name
        approach_name qualifier_name roots
      { ok := true, error := none, candidates := (pySortDesc cands).take 5 }

/-- One step of the last-occurrence scan for a given key. -/
def lastWinsStep (k : Str) (acc : Option TableEntry) (pt : PcsTableElem) : Option TableEntry :=
  match parseTable pt with
  | some ke => if ke.1 == k then some ke.2 else acc
  | none => acc

/-- The entry of the last table in the source carrying the given key, if
any: the reference value for the duplicate-key behaviour of the parser. -/
def lastWins (xs : List PcsTableElem) (k : Str) : Option TableEntry :=
  xs.foldl (lastWinsStep k) none

/-- The single table of the section-8 scenario: root 0FT, one row. -/
def scenarioTable : PcsTableElem :=
  { axes := [⟨strOf "1", strOf "Section", [], [⟨strOf "0", strOf "Medical and Surgical"⟩]⟩,
             ⟨strOf "2", strOf "Body System", [], [⟨strOf "F", strOf "Hepatobiliary System and Pancreas"⟩]⟩,
             ⟨strOf "3", strOf "Operation", [], [⟨strOf "T", strOf "Resection"⟩]⟩],
    pcsRows := [⟨[⟨strOf "4", [], [], [⟨strOf "4", strOf "Gallbladder"⟩]⟩,
                  ⟨strOf "5", [], [], [⟨strOf "0", strOf "Open"⟩, ⟨strOf "4", strOf "Percutaneous Endoscopic"⟩]⟩,
                  ⟨strOf "6", [], [], [⟨strOf "Z", strOf "No Device"⟩]⟩,
                  ⟨strOf "7", [], [], [⟨strOf "Z", strOf "No Qualifier"⟩]⟩]⟩] }

/-- The store entry the scenario table parses to. -/
def scenEntry : TableEntry :=
  { section_ := ⟨strOf "0", strOf "Medical and Surgical"⟩
    body_system := ⟨strOf "F", strOf "Hepatobiliary System and Pancreas"⟩
    operation := ⟨strOf "T", strOf "Resection"⟩
    operationDef := []
    rows := [[(strOf "4", [⟨strOf "4", strOf "Gallbladder"⟩]),
              (strOf "5", [⟨strOf "0", strOf "Open"⟩, ⟨strOf "4", strOf "Percutaneous Endoscopic"⟩]),
              (strOf "6", [⟨strOf "Z", strOf "No Device"⟩]),
              (strOf "7", [⟨strOf "Z", strOf "No Qualifier"⟩])]] }

/-- Context loaded with the single scenario table. -/
def scenarioCtx : TablesContext := loadContext (some [scenarioTable]) none none none none

/-- The section-8 scenario resolve call. -/
def scenarioRes : ResolveResult :=
  resolve_code scenarioCtx (strOf "0") (some (strOf "Hepatobiliary System and Pancreas"))
    (some (strOf "Resection")) (some (strOf "Gallbladder")) (some (strOf "Percutaneous Endoscopic"))
    none none none

/-- The candidate the scenario produces. -/
def scenCandidate : Candidate :=
  { pcs_code := strOf "0FT44ZZ"
    components :=
      { section_ := strOf "0", body_system := strOf "F", root_operation := strOf "T"
        body_part := some (strOf "4"), approach := some (strOf "4")
        device := some (strOf "Z"), qualifier := some (strOf "Z") }
    labels :=
      { section_ := strOf "Medical and Surgical"
        body_system := strOf "Hepatobiliary System and Pancreas"
        root_operation := strOf "Resection"
        body_part := some (strOf "Gallbladder")
        approach := some (strOf "Percutaneous Endoscopic")
        device := some (strOf "No Device"), qualifier := some (strOf "No Qualifier") }
    score := 4
    root_key := strOf "0FT" }

/-- A second root 0GT whose body-system and operation texts match the
scenario filters, used to exercise the ranking tie-break. -/
def tableG : PcsTableElem :=
  { axes := [⟨strOf "1", strOf "Section", [], [⟨strOf "0", strOf "Medical and Surgical"⟩]⟩,
             ⟨strOf "2", strOf "Body System", [], [⟨strOf "G", strOf "Hepatobiliary System and Pancreas"⟩]⟩,
             ⟨strOf "3", strOf "Operation", [], [⟨strOf "T", strOf "Resection"⟩]⟩],
    pcsRows := scenarioTable.pcsRows }

/-- Context loaded with the two matching roots 0FT and 0GT. -/
def twoCtx : TablesContext := loadContext (some [scenarioTable, tableG]) none none none none

/-- A resolve call producing two fully-resolved candidates of equal score. -/
def twoRes : ResolveResult :=
  resolve_code twoCtx (strOf "0") (some (strOf "Hepatobiliary System and Pancreas"))
    (some (strOf "Resection")) (some (strOf "Gallbladder")) (some (strOf "Percutaneous Endoscopic"))
    none none none

/-- A second table with the same 0FT root key but different content (its
row offers only the Open approach). -/
def dupTableB : PcsTableElem :=
  { axes := scenarioTable.axes,
    pcsRows := [⟨[⟨strOf "4", [], [], [⟨strOf "4", strOf "Gallbladder"⟩]⟩,
                  ⟨strOf "5", [], [], [⟨strOf "0", strOf "Open"⟩]⟩,
                  ⟨strOf "6", [], [], [⟨strOf "Z", strOf "No Device"⟩]⟩,
                  ⟨strOf "7", [], [], [⟨strOf "Z", strOf "No Qualifier"⟩]⟩]⟩] }

/-- A table whose single row references axis position 9 only. -/
def axis9Table : PcsTableElem :=
  { axes := scenarioTable.axes,
    pcsRows := [⟨[⟨strOf "9", [], [], [⟨strOf "X", strOf "Weird"⟩]⟩]⟩] }

/-- A table whose header axis 1 carries two labels. -/
def multiHeaderTable : PcsTableElem :=
  { axes := [⟨strOf "1", strOf "Section", [],
               [⟨strOf "0", strOf "Medical and Surgical"⟩, ⟨strOf "1", strOf "Obstetrics"⟩]⟩,
             ⟨strOf "2", strOf "Body System", [], [⟨strOf "F", strOf "Hepatobiliary System and Pancreas"⟩]⟩,
             ⟨strOf "3", strOf "Operation", [], [⟨strOf "T", strOf "Resection"⟩]⟩],
    pcsRows := scenarioTable.pcsRows }

/-- A context whose table source is absent. -/
def emptyCtx : TablesContext := loadContext none none none none none

/-- Sorted-before relation guaranteed for the resolver output: the earlier
candidate never has a strictly smaller (score, code) key. -/
def SortRel (a b : Candidate) : Prop := ¬ keyOf a < keyOf b

/-- The outcome of one (body part, device) trial: the triple kept by the
trial loop when the call yields a truthy code, nothing otherwise. -/
def trialPick (tables : List (Str × TableEntry)) (rt : Str) (ap qu : Option Str)
    (p : Option Str × Option Str) : Option (Str × Choice × List Alt) :=
  match best_match_row tables rt p.1 ap p.2 qu with
  | (some code, some chosen, alts) =>
      if code.isEmpty then none else some (code, chosen, alts)
  | _ => none

/-- A store holding the scenario entry directly under its root key. -/
def scenStore : List (Str × TableEntry) := [(strOf "0FT", scenEntry)]

/-- Scenario body-part target. -/
def wGall : Option Str := some (strOf "Gallbladder")

/-- Scenario approach target. -/
def wPerc : Option Str := some (strOf "Percutaneous Endoscopic")

/-- Lookup after a dict insert: the inserted key finds the new value, any
other key is unaffected. -/
lemma lookupA_dictInsert (m : List (Str × α)) (k2 : Str) (e : α) (k : Str) :
    lookupA (dictInsert m k2 e) k = if k2 == k then some e else lookupA m k := by
  induction m with
  | nil => simp [dictInsert, lookupA]
  | cons hd tl ih =>
      obtain ⟨k0, v0⟩ := hd
      by_cases h02 : k0 = k2
      · subst h02
        by_cases h0k : k0 = k
        · subst h0k
          simp [dictInsert, lookupA]
        · simp [dictInsert, lookupA, h0k]
      · by_cases h0k : k0 = k
        · subst h0k
          have h2k : ¬ (k2 = k0) := fun hc => h02 hc.symm
          simp [dictInsert, lookupA, h02, h2k]
        · simp [dictInsert, lookupA, h02, h0k, ih]

/-- A pick always returns one of the row's own options. -/
lemma pick_mem (options : List AxisLabel) (w : Option Str) (o : AxisLabel)
    (h : (pick options w).1 = some o) : o ∈ options := by
  cases options with
  | nil => simp [pick] at h
  | cons o0 rest =>
      by_cases ht : pyTruthy w
      · rcases h1 : (o0 :: rest).find? (fun x => strEq x.text (w.getD [])) with _ | o1
        · rcases h2 : (o0 :: rest).find?
              (fun x => strContains x.text (w.getD []) || strContains (w.getD []) x.text)
            with _ | o2
          · simp [pick, ht, h1, h2] at h
            subst h
            exact List.mem_cons_self _ _
          · simp [pick, ht, h1, h2] at h
            subst h
            exact List.mem_of_find?_eq_some h2
        · simp [pick, ht, h1] at h
          subst h
          exact List.mem_of_find?_eq_some h1
      · rcases h1 : (o0 :: rest).find? (fun x => strEq x.text (strOf "No Device")) with _ | o1
        · rcases h2 : (o0 :: rest).find? (fun x => strEq x.text (strOf "No Qualifier")) with _ | o2
          · simp [pick, ht, h1, h2] at h
            subst h
            exact List.mem_cons_self _ _
          · simp [pick, ht, h1, h2] at h
            subst h
            exact List.mem_of_find?_eq_some h2
        · simp [pick, ht, h1] at h
          subst h
          exact List.mem_of_find?_eq_some h1

/-- A choice yields a code exactly when all four picks are present, and the
code is then assembled from those four labels. -/
lemma choiceCode_some (t : TableEntry) (c : Choice) (code : Str)
    (h : choiceCode t c = some code) :
    ∃ a b d e, c.p4 = some a ∧ c.p5 = some b ∧ c.p6 = some d ∧ c.p7 = some e ∧
      code = mkCode t a b d e := by
  obtain ⟨p4, p5, p6, p7⟩ := c
  cases p4 <;> cases p5 <;> cases p6 <;> cases p7 <;> simp_all [choiceCode]

/-- The code of a choice is present iff every axis produced a pick. -/
lemma choiceCode_isSome (t : TableEntry) (c : Choice) :
    (choiceCode t c).isSome ↔
      c.p4.isSome ∧ c.p5.isSome ∧ c.p6.isSome ∧ c.p7.isSome := by
  obtain ⟨p4, p5, p6, p7⟩ := c
  cases p4 <;> cases p5 <;> cases p6 <;> cases p7 <;> simp [choiceCode]

/-- A choice with all four picks present counts four picks. -/
lemma choiceScore_full (c : Choice) (h4 : c.p4.isSome) (h5 : c.p5.isSome)
    (h6 : c.p6.isSome) (h7 : c.p7.isSome) : choiceScore c = 4 := by
  obtain ⟨p4, p5, p6, p7⟩ := c
  cases p4 <;> cases p5 <;> cases p6 <;> cases p7 <;> simp_all [choiceScore]

/-- Characterisation of the running-best fold: either no row strictly beats
the initial score and the state is unchanged, or the fold returns the first
row attaining the maximal score, which strictly exceeds the initial score,
strictly exceeds every earlier row, and weakly dominates every row. -/
lemma bmFold_spec (f : Row → Nat) (g : Row → Choice) :
    ∀ (rows : List Row) (s : Int) (c : Option Choice),
      ((∀ r ∈ rows, (f r : Int) ≤ s) ∧ bmFold f g rows s c = (s, c)) ∨
      (∃ pre r post, rows = pre ++ r :: post ∧ (f r : Int) > s ∧
        (∀ x ∈ pre, f x < f r) ∧ (∀ x ∈ rows, f x ≤ f r) ∧
        bmFold f g rows s c = ((f r : Int), some (g r))) := by
  intro rows
  induction rows with
  | nil =>
      intro s c
      left
      exact ⟨by simp, rfl⟩
  | cons r0 rest ih =>
      intro s c
      by_cases h0 : (f r0 : Int) > s
      · rcases ih (f r0) (some (g r0)) with ⟨hall, heq⟩ | ⟨pre, r, post, hdec, hgt, hpre, hall, heq⟩
        · right
          refine ⟨[], r0, rest, rfl, h0, by simp, ?_, ?_⟩
          · intro x hx
            rcases List.mem_cons.mp hx with hx | hx
            · subst hx; exact le_refl _
            · exact_mod_cast hall x hx
          · simp only [bmFold, h0, if_pos]
            exact heq
        · right
          refine ⟨r0 :: pre, r, post, by rw [hdec]; rfl, ?_, ?_, ?_, ?_⟩
          · exact lt_trans h0 hgt
          · intro x hx
            rcases List.mem_cons.mp hx with hx | hx
            · subst hx; exact_mod_cast hgt
            · exact hpre x hx
          · intro x hx
            rcases List.mem_cons.mp hx with hx | hx
            · subst hx
              have : (f x : Int) < (f r : Int) := hgt
              exact le_of_lt (by exact_mod_cast this)
            · exact hall x hx
          · simp only [bmFold, h0, if_pos]
            exact heq
      · push_neg at h0
        rcases ih s c with ⟨hall, heq⟩ | ⟨pre, r, post, hdec, hgt, hpre, hall, heq⟩
        · left
          constructor
          · intro x hx
            rcases List.mem_cons.mp hx with hx | hx
            · subst hx; exact h0
            · exact hall x hx
          · have hnot : ¬ ((f r0 : Int) > s) := not_lt.mpr h0
            simp only [bmFold, hnot, if_neg, if_false]
            exact heq
        · right
          refine ⟨r0 :: pre, r, post, by rw [hdec]; rfl, hgt, ?_, ?_, ?_⟩
          · intro x hx
            rcases List.mem_cons.mp hx with hx | hx
            · subst hx
              have : (f x : Int) < (f r : Int) := lt_of_le_of_lt h0 hgt
              exact_mod_cast this
            · exact hpre x hx
          · intro x hx
            rcases List.mem_cons.mp hx with hx | hx
            · subst hx
              have : (f x : Int) < (f r : Int) := lt_of_le_of_lt h0 hgt
              exact le_of_lt (by exact_mod_cast this)
            · exact hall x hx
          · have hnot : ¬ ((f r0 : Int) > s) := not_lt.mpr h0
            simp only [bmFold, hnot, if_neg, if_false]
            exact heq

/-- Any choice produced by the running-best fold is the choice of one of
the processed rows, unless it was already the initial choice. -/
lemma bmFold_choice_mem (f : Row → Nat) (g : Row → Choice) :
    ∀ (rows : List Row) (s : Int) (c : Option Choice) (c0 : Choice),
      (bmFold f g rows s c).2 = some c0 → c = some c0 ∨ ∃ r ∈ rows, c0 = g r := by
  intro rows
  induction rows with
  | nil =>
      intro s c c0 h
      left
      exact h
  | cons r0 rest ih =>
      intro s c c0 h
      by_cases h0 : (f r0 : Int) > s
      · simp only [bmFold, h0, if_pos] at h
        rcases ih (f r0) (some (g r0)) c0 h with h1 | ⟨r, hr, hc⟩
        · right
          exact ⟨r0, List.mem_cons_self _ _, (Option.some_inj.mp h1).symm⟩
        · right
          exact ⟨r, List.mem_cons_of_mem _ hr, hc⟩
      · simp only [bmFold, h0, if_neg, if_false] at h
        rcases ih s c c0 h with h1 | ⟨r, hr, hc⟩
        · left; exact h1
        · right; exact ⟨r, List.mem_cons_of_mem _ hr, hc⟩

/-- Core atomicity fact: a code returned by best_match_row is assembled
from the four picks of one single row of the looked-up table, each pick a
member of that row's own option list, and the chosen labels are exactly
that row's choice, which counts four picks. -/
lemma bmr_atomic (tables : List (Str × TableEntry)) (k : Str) (bp ap dv qu : Option Str)
    (code : Str) (h : (best_match_row tables k bp ap dv qu).1 = some code) :
    ∃ t r o4 o5 o6 o7, lookupA tables k = some t ∧ r ∈ t.rows ∧
      o4 ∈ rowGet r (strOf "4") ∧ o5 ∈ rowGet r (strOf "5") ∧
      o6 ∈ rowGet r (strOf "6") ∧ o7 ∈ rowGet r (strOf "7") ∧
      (pick (rowGet r (strOf "4")) bp).1 = some o4 ∧
      (pick (rowGet r (strOf "5")) ap).1 = some o5 ∧
      (pick (rowGet r (strOf "6")) dv).1 = some o6 ∧
      (pick (rowGet r (strOf "7")) qu).1 = some o7 ∧
      code = mkCode t o4 o5 o6 o7 ∧
      (best_match_row tables k bp ap dv qu).2.1 = some (rowChoice bp ap dv qu r) ∧
      choiceScore (rowChoice bp ap dv qu r) = 4 := by
  rcases hl : lookupA tables k with _ | t
  · simp only [best_match_row, hl] at h
    exact Option.noConfusion h
  · have hbmr : best_match_row tables k bp ap dv qu =
        bmrPost t (bmFold (rowScore bp ap dv qu) (rowChoice bp ap dv qu) t.rows (-1) none).2
          (t.rows.map (fun r =>
            ⟨choiceCode t (rowChoice bp ap dv qu r), rowScore bp ap dv qu r,
             rowChoice bp ap dv qu r⟩)) := by
      simp only [best_match_row, hl]
    rcases hbc : (bmFold (rowScore bp ap dv qu) (rowChoice bp ap dv qu) t.rows (-1) none).2
      with _ | c
    · rw [hbmr, hbc] at h
      simp [bmrPost] at h
    · rw [hbmr, hbc] at h
      rcases hcc : choiceCode t c with _ | code2
      · simp [bmrPost, hcc] at h
      · simp only [bmrPost, hcc] at h
        have hc2 : code2 = code := by simpa using h
        subst hc2
        rcases bmFold_choice_mem (rowScore bp ap dv qu) (rowChoice bp ap dv qu)
            t.rows (-1) none c hbc with hcontra | ⟨r, hr, hcr⟩
        · exact absurd hcontra (by simp)
        · obtain ⟨a, b, d, e, hp4, hp5, hp6, hp7, hcode⟩ := choiceCode_some t c code2 hcc
          subst hcr
          refine ⟨t, r, a, b, d, e, rfl, hr, ?_, ?_, ?_, ?_, hp4, hp5, hp6, hp7, hcode, ?_, ?_⟩
          · exact pick_mem _ _ _ hp4
          · exact pick_mem _ _ _ hp5
          · exact pick_mem _ _ _ hp6
          · exact pick_mem _ _ _ hp7
          · rw [hbmr, hbc]
            simp [bmrPost, hcc]
          · exact choiceScore_full _ (by simp [hp4]) (by simp [hp5]) (by simp [hp6]) (by simp [hp7])

/-- Descending insertion only adds the inserted element. -/
lemma mem_insertDesc (z x : Candidate) :
    ∀ l, z ∈ insertDesc x l → z = x ∨ z ∈ l := by
  intro l
  induction l with
  | nil =>
      intro h
      simp [insertDesc] at h
      exact Or.inl h
  | cons y ys ih =>
      intro h
      by_cases hlt : candLt y x
      · simp only [insertDesc, hlt, if_pos] at h
        rcases List.mem_cons.mp h with h | h
        · exact Or.inl h
        · exact Or.inr h
      · simp only [insertDesc, hlt, if_neg, if_false] at h
        rcases List.mem_cons.mp h with h | h
        · exact Or.inr (h ▸ List.mem_cons_self _ _)
        · rcases ih h with h | h
          · exact Or.inl h
          · exact Or.inr (List.mem_cons_of_mem _ h)

/-- The stable descending sort only reorders: membership is preserved. -/
lemma mem_pySortDesc (z : Candidate) :
    ∀ (l acc : List Candidate),
      z ∈ l.foldl (fun a x => insertDesc x a) acc → z ∈ acc ∨ z ∈ l := by
  intro l
  induction l with
  | nil =>
      intro acc h
      exact Or.inl h
  | cons x xs ih =>
      intro acc h
      rcases ih (insertDesc x acc) h with h | h
      · rcases mem_insertDesc z x acc h with h | h
        · exact Or.inr (h ▸ List.mem_cons_self _ _)
        · exact Or.inl h
      · exact Or.inr (List.mem_cons_of_mem _ h)

/-- Any kept trial outcome originates in one best_match_row call (or was
the incoming best). -/
lemma trialLoop_comes_from (tables : List (Str × TableEntry)) (rt : Str) (ap qu : Option Str) :
    ∀ (pairs : List (Option Str × Option Str)) (s : Int)
      (best : Option (Str × Choice × List Alt)) (out : Str × Choice × List Alt),
      trialLoop tables rt ap qu pairs s best = some out →
      best = some out ∨ ∃ p : Option Str × Option Str,
        best_match_row tables rt p.1 ap p.2 qu = (some out.1, some out.2.1, out.2.2) := by
  intro pairs
  induction pairs with
  | nil =>
      intro s best out h
      left
      exact h
  | cons p rest ih =>
      intro s best out h
      rcases hb : best_match_row tables rt p.1 ap p.2 qu with ⟨oc, occ, alts⟩
      rcases oc with _ | code <;> rcases occ with _ | chosen
      · simp only [trialLoop, hb] at h
        exact ih s best out h
      · simp only [trialLoop, hb] at h
        exact ih s best out h
      · simp only [trialLoop, hb] at h
        exact ih s best out h
      · by_cases he : code.isEmpty
        · simp only [trialLoop, hb, he, if_pos] at h
          exact ih s best out h
        · by_cases hgt : ((choiceScore chosen : Int) > s)
          · simp only [trialLoop, hb, he, if_neg, if_false, hgt, if_pos,
              Bool.false_eq_true] at h
            rcases ih _ _ out h with h1 | h2
            · right
              refine ⟨p, ?_⟩
              have hout : out = (code, chosen, alts) := (Option.some_inj.mp h1).symm
              rw [hout, hb]
            · right
              exact h2
          · simp only [trialLoop, hb, he, if_neg, if_false, hgt, Bool.false_eq_true] at h
            exact ih s best out h

/-- A successful best_match_row tuple carries a full choice of four picks. -/
lemma bmr_tuple_score4 (tables : List (Str × TableEntry)) (rt : Str)
    (bp ap dv qu : Option Str) (code : Str) (chosen : Choice) (alts : List Alt)
    (hb : best_match_row tables rt bp ap dv qu = (some code, some chosen, alts)) :
    choiceScore chosen = 4 := by
  have h1 : (best_match_row tables rt bp ap dv qu).1 = some code := by rw [hb]
  obtain ⟨t, r, o4, o5, o6, o7, _, _, _, _, _, _, _, _, _, _, _, h2, h3⟩ :=
    bmr_atomic tables rt bp ap dv qu code h1
  have h4 : (best_match_row tables rt bp ap dv qu).2.1 = some chosen := by rw [hb]
  rw [h2] at h4
  rw [← Option.some_inj.mp h4]
  exact h3

/-- Once a trial with the full score of four is kept, no later trial
replaces it. -/
lemma trialLoop_stay (tables : List (Str × TableEntry)) (rt : Str) (ap qu : Option Str) :
    ∀ (pairs : List (Option Str × Option Str)) (x : Str × Choice × List Alt),
      trialLoop tables rt ap qu pairs 4 (some x) = some x := by
  intro pairs
  induction pairs with
  | nil =>
      intro x
      rfl
  | cons p rest ih =>
      intro x
      rcases hb : best_match_row tables rt p.1 ap p.2 qu with ⟨oc, occ, alts⟩
      rcases oc with _ | code <;> rcases occ with _ | chosen
      · simp only [trialLoop, hb]
        exact ih x
      · simp only [trialLoop, hb]
        exact ih x
      · simp only [trialLoop, hb]
        exact ih x
      · by_cases he : code.isEmpty
        · simp only [trialLoop, hb, he, if_pos]
          exact ih x
        · have hs : choiceScore chosen = 4 := bmr_tuple_score4 tables rt p.1 ap p.2 qu _ _ _ hb
          have hngt : ¬ ((choiceScore chosen : Int) > (4 : Int)) := by
            rw [hs]
            omega
          simp only [trialLoop, hb, he, if_neg, if_false, hngt, Bool.false_eq_true]
          exact ih x

/-- The per-root trial loop degenerates to keeping the first trial that
yields a code: every code-producing trial scores exactly four, so no later
trial can strictly beat the first one. -/
lemma trialLoop_eq_findSome (tables : List (Str × TableEntry)) (rt : Str) (ap qu : Option Str) :
    ∀ (pairs : List (Option Str × Option Str)),
      trialLoop tables rt ap qu pairs (-1) none =
        pairs.findSome? (trialPick tables rt ap qu) := by
  intro pairs
  induction pairs with
  | nil =>
      rfl
  | cons p rest ih =>
      rcases hb : best_match_row tables rt p.1 ap p.2 qu with ⟨oc, occ, alts⟩
      rcases oc with _ | code <;> rcases occ with _ | chosen
      · simp only [trialLoop, hb, List.findSome?_cons, trialPick]
        exact ih
      · simp only [trialLoop, hb, List.findSome?_cons, trialPick]
        exact ih
      · simp only [trialLoop, hb, List.findSome?_cons, trialPick]
        exact ih
      · by_cases he : code.isEmpty
        · simp only [trialLoop, hb, he, if_pos, List.findSome?_cons, trialPick]
          exact ih
        · have hs : choiceScore chosen = 4 := bmr_tuple_score4 tables rt p.1 ap p.2 qu _ _ _ hb
          have hgt : ((choiceScore chosen : Int) > (-1 : Int)) := by
            rw [hs]
            omega
          simp only [trialLoop, hb, he, if_neg, if_false, hgt, if_pos, hs,
            List.findSome?_cons, trialPick, Bool.false_eq_true]
          exact trialLoop_stay tables rt ap qu rest (code, chosen, alts)

/-- The boolean comparison agrees with the key order. -/
lemma candLt_iff (a b : Candidate) : candLt a b = true ↔ keyOf a < keyOf b := by
  simp [candLt]

/-- Descending insertion preserves the sortedness invariant. -/
lemma pairwise_insertDesc (x : Candidate) :
    ∀ l, l.Pairwise SortRel → (insertDesc x l).Pairwise SortRel := by
  intro l
  induction l with
  | nil =>
      intro _
      simp [insertDesc]
  | cons y ys ih =>
      intro h
      rcases List.pairwise_cons.mp h with ⟨hy, hys⟩
      by_cases hlt : candLt y x
      · have hk : keyOf y < keyOf x := (candLt_iff y x).mp hlt
        simp only [insertDesc, hlt, if_pos]
        refine List.pairwise_cons.mpr ⟨?_, h⟩
        intro z hz
        rcases List.mem_cons.mp hz with hz | hz
        · subst hz
          exact lt_asymm hk
        · have hzle : keyOf z ≤ keyOf y := not_lt.mp (hy z hz)
          exact lt_asymm (lt_of_le_of_lt hzle hk)
      · have hk : ¬ keyOf y < keyOf x := fun hc => hlt ((candLt_iff y x).mpr hc)
        simp only [insertDesc, hlt, if_neg, if_false, Bool.false_eq_true]
        refine List.pairwise_cons.mpr ⟨?_, ih hys⟩
        intro z hz
        rcases mem_insertDesc z x ys hz with hz | hz
        · subst hz
          exact hk
        · exact hy z hz

/-- The fold of descending insertions keeps the invariant. -/
lemma pairwise_sortAux :
    ∀ (l acc : List Candidate), acc.Pairwise SortRel →
      (l.foldl (fun a x => insertDesc x a) acc).Pairwise SortRel := by
  intro l
  induction l with
  | nil =>
      intro acc h
      exact h
  | cons x xs ih =>
      intro acc h
      exact ih _ (pairwise_insertDesc x acc h)

/-- The resolver sort produces a list sorted descending by (score, code). -/
lemma pairwise_pySortDesc (l : List Candidate) : (pySortDesc l).Pairwise SortRel :=
  pairwise_sortAux l [] List.Pairwise.nil

/-- A candidate added by one root step either was already accumulated or is
built from that root's kept trial. -/
lemma mem_buildStep (ctx : TablesContext) (tables : List (Str × TableEntry))
    (bp dv ap qu : Option Str) (acc : List Candidate) (rt : Str) (c : Candidate)
    (h : c ∈ buildStep ctx tables bp dv ap qu acc rt) :
    c ∈ acc ∨ ∃ t code chosen alts,
      lookupA tables rt = some t ∧
      trialLoop tables rt ap qu (trialPairs ctx bp dv) (-1) none = some (code, chosen, alts) ∧
      c = mkCandidate t rt code chosen := by
  rcases htr : trialLoop tables rt ap qu (trialPairs ctx bp dv) (-1) none
    with _ | ⟨code, chosen, alts⟩
  · simp only [buildStep, htr] at h
    exact Or.inl h
  · rcases hl : lookupA tables rt with _ | t
    · simp only [buildStep, htr, hl] at h
      exact Or.inl h
    · simp only [buildStep, htr, hl] at h
      rcases List.mem_append.mp h with h | h
      · exact Or.inl h
      · exact Or.inr ⟨t, code, chosen, alts, rfl, rfl, List.mem_singleton.mp h⟩

/-- Any candidate accumulated over the root list is built from some root's
kept trial. -/
lemma mem_buildCandidates (ctx : TablesContext) (tables : List (Str × TableEntry))
    (bp dv ap qu : Option Str) :
    ∀ (roots : List Str) (acc : List Candidate) (c : Candidate),
      c ∈ roots.foldl (buildStep ctx tables bp dv ap qu) acc →
      c ∈ acc ∨ ∃ rt t code chosen alts,
        lookupA tables rt = some t ∧
        trialLoop tables rt ap qu (trialPairs ctx bp dv) (-1) none = some (code, chosen, alts) ∧
        c = mkCandidate t rt code chosen := by
  intro roots
  induction roots with
  | nil =>
      intro acc c h
      exact Or.inl h
  | cons rt rts ih =>
      intro acc c h
      rcases ih (buildStep ctx tables bp dv ap qu acc rt) c h with h1 | h1
      · rcases mem_buildStep ctx tables bp dv ap qu acc rt c h1 with h2 | ⟨t, code, chosen, alts, h3, h4, h5⟩
        · exact Or.inl h2
        · exact Or.inr ⟨rt, t, code, chosen, alts, h3, h4, h5⟩
      · obtain ⟨rt2, t, code, chosen, alts, h3, h4, h5⟩ := h1
        exact Or.inr ⟨rt2, t, code, chosen, alts, h3, h4, h5⟩

/-- Top-level case analysis of resolve_code: a typed failure exactly when
no tables are loaded, otherwise a success record built from the sorted,
truncated candidate list. -/
lemma resolve_cases (ctx : TablesContext) (sn : Str) (bs ro bp ap dv qu nt : Option Str) :
    (ctx.tables = none ∧ resolve_code ctx sn bs ro bp ap dv qu nt =
        ⟨false, some (strOf "Tables not loaded."), []⟩) ∨
    (∃ tables, ctx.tables = some tables ∧
      resolve_code ctx sn bs ro bp ap dv qu nt =
        ⟨true, none, (pySortDesc (buildCandidates ctx tables bp dv ap qu
          (resolveRoots ctx tables bs ro nt))).take 5⟩) := by
  rcases hl : ctx.tables with _ | tables
  · left
    exact ⟨rfl, by simp only [resolve_code, hl]⟩
  · right
    exact ⟨tables, rfl, by simp only [resolve_code, hl]⟩

/-- Looking a key up after the parse fold equals scanning the source for
the last table carrying that key, starting from the incoming binding. -/
lemma parse_lookup_go (k : Str) :
    ∀ (xs : List PcsTableElem) (m : List (Str × TableEntry)),
      lookupA (xs.foldl parseStep m) k = xs.foldl (lastWinsStep k) (lookupA m k) := by
  intro xs
  induction xs with
  | nil =>
      intro m
      rfl
  | cons pt rest ih =>
      intro m
      simp only [List.foldl_cons]
      rw [ih]
      have hstep : lookupA (parseStep m pt) k = lastWinsStep k (lookupA m k) pt := by
        rcases hp : parseTable pt with _ | ke
        · simp [parseStep, lastWinsStep, hp]
        · simp [parseStep, lastWinsStep, hp, lookupA_dictInsert]
      rw [hstep]

/-- C1, counterexample: in the section-8 scenario the single candidate has
code 0FT44ZZ but score 4, not 8 — the candidate score field counts the
non-empty axis picks, it is not the sum of the raw per-axis pick scores. -/
theorem C1_counterexample :
    scenarioRes.candidates.map (fun c => (c.pcs_code, c.score)) = [(strOf "0FT44ZZ", 4)] ∧
    ¬ (∃ c, scenarioRes.candidates = [c] ∧ c.pcs_code = strOf "0FT44ZZ" ∧ c.score = 8) := by
  refine ⟨by decide, ?_⟩
  rintro ⟨c, hc, _, hs⟩
  have h : scenarioRes.candidates.map (fun c => (c.pcs_code, c.score)) =
      [(strOf "0FT44ZZ", 4)] := by decide
  rw [hc] at h
  simp only [List.map_cons, List.map_nil, List.cons.injEq, Prod.mk.injEq] at h
  omega

/-- C1, amended: the section-8 scenario resolve call succeeds with exactly
one candidate, code 0FT44ZZ and candidate score 4 (the count of non-empty
axis picks); the underlying best-row aggregate pick score is 8 = 3+3+1+1. -/
theorem C1_amended :
    scenarioRes.ok = true ∧ scenarioRes.error = none ∧
    scenarioRes.candidates.map (fun c => (c.pcs_code, c.score)) = [(strOf "0FT44ZZ", 4)] ∧
    (lookupA (pcsParse [scenarioTable]) (strOf "0FT")).map
      (fun t => t.rows.map (rowScore wGall wPerc none none)) = some [8] :=
  ⟨by decide, by decide, by decide, by decide⟩

/-- C3, counterexample: with two source tables sharing the root key 0FT the
store keeps the entry of the SECOND table, not the first, and the parse
reports no conflict (its result type has no error component). -/
theorem C3_counterexample :
    (parseTable scenarioTable).map Prod.snd ≠ (parseTable dupTableB).map Prod.snd ∧
    lookupA (pcsParse [scenarioTable, dupTableB]) (strOf "0FT") =
      (parseTable dupTableB).map Prod.snd :=
  ⟨by decide, by decide⟩

/-- C3, amended: when the table source contains several tables with the
same root key, the loaded store keeps the LAST-occurring table for that key
(the later table silently overwrites the earlier one) and no error of any
kind is reported. -/
theorem C3_amended (xs : List PcsTableElem) (k : Str) :
    lookupA (pcsParse xs) k = lastWins xs k :=
  parse_lookup_go k xs []

/-- C9, counterexample: a table whose header axis 1 carries two labels is
accepted into the store (keyed by the first label), not skipped. -/
theorem C9_counterexample :
    (pcsParse [multiHeaderTable]).map Prod.fst = [strOf "0FT"] ∧
    (lookupA (pcsParse [multiHeaderTable]) (strOf "0FT")).isSome = true :=
  ⟨by decide, by decide⟩

/-- C9, amended: a table entry is rejected exactly when one of its header
axes 1-3 yields an empty code (axis missing, zero labels, or an empty code
on the first label); an axis with several labels is accepted, its first
label supplying the key character, with no note emitted. -/
theorem C9_amended (pt : PcsTableElem) :
    (parseTable pt = none ↔
      ((hdrLabel (axisInfo pt.axes) (strOf "1")).code.isEmpty
        || (hdrLabel (axisInfo pt.axes) (strOf "2")).code.isEmpty
        || (hdrLabel (axisInfo pt.axes) (strOf "3")).code.isEmpty) = true) ∧
    (∀ (i1 i2 i3 : AxisInfo) (l1 : AxisLabel) (r1 : List AxisLabel)
       (l2 : AxisLabel) (r2 : List AxisLabel) (l3 : AxisLabel) (r3 : List AxisLabel),
      lookupA (axisInfo pt.axes) (strOf "1") = some i1 → i1.labels = l1 :: r1 →
      lookupA (axisInfo pt.axes) (strOf "2") = some i2 → i2.labels = l2 :: r2 →
      lookupA (axisInfo pt.axes) (strOf "3") = some i3 → i3.labels = l3 :: r3 →
      l1.code.isEmpty = false → l2.code.isEmpty = false → l3.code.isEmpty = false →
      ∃ e, parseTable pt = some (l1.code ++ l2.code ++ l3.code, e)) := by
  constructor
  · by_cases h : ((hdrLabel (axisInfo pt.axes) (strOf "1")).code.isEmpty
        || (hdrLabel (axisInfo pt.axes) (strOf "2")).code.isEmpty
        || (hdrLabel (axisInfo pt.axes) (strOf "3")).code.isEmpty) = true
    · simp [parseTable, h]
    · simp [parseTable, h]
  · intro i1 i2 i3 l1 r1 l2 r2 l3 r3 h1 h1l h2 h2l h3 h3l e1 e2 e3
    have hl1 : hdrLabel (axisInfo pt.axes) (strOf "1") = l1 := by
      simp only [hdrLabel, h1, h1l]
    have hl2 : hdrLabel (axisInfo pt.axes) (strOf "2") = l2 := by
      simp only [hdrLabel, h2, h2l]
    have hl3 : hdrLabel (axisInfo pt.axes) (strOf "3") = l3 := by
      simp only [hdrLabel, h3, h3l]
    refine ⟨{ section_ := l1, body_system := l2, operation := l3,
              operationDef := hdrDef (axisInfo pt.axes) (strOf "3"),
              rows := pt.pcsRows.filterMap (fun r =>
                let d := rowDict r
                if d.isEmpty then none else some d) }, ?_⟩
    simp only [parseTable, hl1, hl2, hl3, e1, e2, e3, Bool.or_self, Bool.or_false,
      Bool.false_eq_true, if_false]

/-- C9, witness: the multi-label-header table is accepted under key 0FT. -/
theorem C9_witness :
    ∃ e, parseTable multiHeaderTable = some (strOf "0" ++ strOf "F" ++ strOf "T", e) :=
  (C9_amended multiHeaderTable).2
    ⟨strOf "Section", [], [⟨strOf "0", strOf "Medical and Surgical"⟩, ⟨strOf "1", strOf "Obstetrics"⟩]⟩
    ⟨strOf "Body System", [], [⟨strOf "F", strOf "Hepatobiliary System and Pancreas"⟩]⟩
    ⟨strOf "Operation", [], [⟨strOf "T", strOf "Resection"⟩]⟩
    ⟨strOf "0", strOf "Medical and Surgical"⟩ [⟨strOf "1", strOf "Obstetrics"⟩]
    ⟨strOf "F", strOf "Hepatobiliary System and Pancreas"⟩ []
    ⟨strOf "T", strOf "Resection"⟩ []
    (by decide) (by decide) (by decide) (by decide) (by decide) (by decide)
    (by decide) (by decide) (by decide)

/-- C8, counterexample: with the table source absent, construction simply
yields an unloaded store (tables = none, loaded = false) and no error of
any kind; and a row referencing axis position 9 (outside 4-7) is stored
without complaint. -/
theorem C8_counterexample :
    (loadContext none none none none none).tables = none ∧
    (loadContext none none none none none).loaded = false ∧
    (lookupA (pcsParse [axis9Table]) (strOf "0FT")).map (fun t => t.rows) =
      some [[(strOf "9", [⟨strOf "X", strOf "Weird"⟩])]] :=
  ⟨rfl, rfl, by decide⟩

/-- C8, amended: loading never raises: the loaded flag simply records
whether the table source was present; with an absent source the store is
unloaded without error and only a later resolve call reports the typed
tables-not-loaded failure; rows referencing axis positions outside
{4,5,6,7} are accepted into the store unchanged. -/
theorem C8_amended (ts : Option (List PcsTableElem)) (idx : Option (List MainTerm))
    (bj dj : Option (List (Str × List Str))) (aj : Option (List (Str × Str)))
    (sn : Str) (bs ro bp ap dv qu nt : Option Str) :
    ((loadContext ts idx bj dj aj).loaded = (loadContext ts idx bj dj aj).tables.isSome) ∧
    (ts = none → (loadContext ts idx bj dj aj).tables = none ∧
      resolve_code (loadContext ts idx bj dj aj) sn bs ro bp ap dv qu nt =
        ⟨false, some (strOf "Tables not loaded."), []⟩) ∧
    ((lookupA (pcsParse [axis9Table]) (strOf "0FT")).map (fun t => t.rows) =
      some [[(strOf "9", [⟨strOf "X", strOf "Weird"⟩])]]) := by
  refine ⟨rfl, ?_, by decide⟩
  intro h
  subst h
  exact ⟨rfl, rfl⟩

/-- C8, witness: the amended behaviour at the concrete absent source. -/
theorem C8_witness :
    (loadContext none none none none none).tables = none ∧
    resolve_code (loadContext none none none none none) (strOf "0")
      none none none none none none none =
      ⟨false, some (strOf "Tables not loaded."), []⟩ :=
  (C8_amended none none none none none (strOf "0")
    none none none none none none none).2.1 rfl

/-- C2, counterexample: two fully-resolved candidates of equal score are
returned with the lexicographically LARGER code first (reverse=True also
reverses the code tie-break), refuting smaller-code-first ordering. -/
theorem C2_counterexample :
    twoRes.candidates.map (fun c => (c.pcs_code, c.score)) =
      [(strOf "0GT44ZZ", 4), (strOf "0FT44ZZ", 4)] ∧
    strOf "0FT44ZZ" < strOf "0GT44ZZ" ∧
    twoRes.candidates.map (fun c => c.pcs_code) ≠ [strOf "0FT44ZZ", strOf "0GT44ZZ"] :=
  ⟨by decide, by decide, by decide⟩

/-- C2, amended: the returned candidate list is sorted descending by
(score, code): for any earlier candidate a and later candidate b, either b
scores strictly less, or the scores are equal and the LARGER (or equal)
code comes first. -/
theorem C2_amended (ctx : TablesContext) (sn : Str) (bs ro bp ap dv qu nt : Option Str) :
    (resolve_code ctx sn bs ro bp ap dv qu nt).candidates.Pairwise
      (fun a b => b.score < a.score ∨ (b.score = a.score ∧ b.pcs_code ≤ a.pcs_code)) := by
  rcases resolve_cases ctx sn bs ro bp ap dv qu nt with ⟨_, heq⟩ | ⟨tables, _, heq⟩
  · rw [heq]
    exact List.Pairwise.nil
  · rw [heq]
    have hp : (pySortDesc (buildCandidates ctx tables bp dv ap qu
        (resolveRoots ctx tables bs ro nt))).Pairwise SortRel :=
      pairwise_pySortDesc _
    have hp5 := List.Pairwise.sublist (List.take_sublist 5 _) hp
    refine hp5.imp ?_
    intro a b hab
    have hle : keyOf b ≤ keyOf a := not_lt.mp hab
    have h2 := (Prod.Lex.le_iff (b.score, b.pcs_code) (a.score, a.pcs_code)).mp hle
    exact h2

/-- C7: resolve fails (ok false, with the typed error) exactly when the
table store holds no data; with tables loaded it always returns ok true
with no error, and with no matching root and no free text supplied the
candidate list is empty. -/
theorem C7_ok_semantics (ctx : TablesContext) (sn : Str) (bs ro bp ap dv qu nt : Option Str) :
    (ctx.tables = none →
      resolve_code ctx sn bs ro bp ap dv qu nt =
        ⟨false, some (strOf "Tables not loaded."), []⟩) ∧
    (∀ tables, ctx.tables = some tables →
      (resolve_code ctx sn bs ro bp ap dv qu nt).ok = true ∧
      (resolve_code ctx sn bs ro bp ap dv qu nt).error = none) ∧
    (∀ tables, ctx.tables = some tables → findRoots tables (strOf "0") bs ro = [] →
      nt = none →
      resolve_code ctx sn bs ro bp ap dv qu nt = ⟨true, none, []⟩) := by
  refine ⟨?_, ?_, ?_⟩
  · intro h
    rcases resolve_cases ctx sn bs ro bp ap dv qu nt with ⟨_, heq⟩ | ⟨tables, hl, _⟩
    · exact heq
    · rw [h] at hl
      exact Option.noConfusion hl
  · intro tables h
    rcases resolve_cases ctx sn bs ro bp ap dv qu nt with ⟨hnone, _⟩ | ⟨tb, _, heq⟩
    · rw [h] at hnone
      exact Option.noConfusion hnone
    · rw [heq]
      exact ⟨rfl, rfl⟩
  · intro tables h hroots hnt
    rcases resolve_cases ctx sn bs ro bp ap dv qu nt with ⟨hnone, _⟩ | ⟨tb, hl, heq⟩
    · rw [h] at hnone
      exact Option.noConfusion hnone
    · rw [h] at hl
      have htb : tb = tables := Option.some_inj.mp hl.symm
      subst htb
      subst hnt
      rw [heq]
      have hrr : resolveRoots ctx tb bs ro none = [] := by
        simp [resolveRoots, hroots, pyTruthy]
      rw [hrr]
      rfl

/-- C7, witness: concrete unloaded and loaded contexts. -/
theorem C7_witness :
    (resolve_code emptyCtx (strOf "0") none none none none none none none =
      ⟨false, some (strOf "Tables not loaded."), []⟩) ∧
    ((resolve_code scenarioCtx (strOf "0") (some (strOf "Nope")) none none none
        none none none).ok = true ∧
     (resolve_code scenarioCtx (strOf "0") (some (strOf "Nope")) none none none
        none none none).error = none) ∧
    (resolve_code scenarioCtx (strOf "0") (some (strOf "Nope")) none none none
        none none none = ⟨true, none, []⟩) :=
  ⟨(C7_ok_semantics emptyCtx (strOf "0") none none none none none none none).1 rfl,
   (C7_ok_semantics scenarioCtx (strOf "0") (some (strOf "Nope")) none none none
      none none none).2.1 (pcsParse [scenarioTable]) rfl,
   (C7_ok_semantics scenarioCtx (strOf "0") (some (strOf "Nope")) none none none
      none none none).2.2 (pcsParse [scenarioTable]) rfl (by decide) rfl⟩

/-- C4: on a loaded root with at least one row, best_match_row selects the
row with the strictly highest aggregate pick score (the first encountered
row on ties), its returned code equals that row's fully-qualified code,
which is present exactly when all four axis positions produced a pick; when
the code is absent the returned chosen labels are empty even though the
best row was identified. -/
theorem C4_best_row (tables : List (Str × TableEntry)) (k : Str) (bp ap dv qu : Option Str)
    (t : TableEntry) (hl : lookupA tables k = some t) (hne : t.rows ≠ []) :
    ∃ pre r post,
      t.rows = pre ++ r :: post ∧
      (∀ x ∈ pre, rowScore bp ap dv qu x < rowScore bp ap dv qu r) ∧
      (∀ x ∈ t.rows, rowScore bp ap dv qu x ≤ rowScore bp ap dv qu r) ∧
      (best_match_row tables k bp ap dv qu).1 = choiceCode t (rowChoice bp ap dv qu r) ∧
      ((choiceCode t (rowChoice bp ap dv qu r)).isSome ↔
        (rowChoice bp ap dv qu r).p4.isSome ∧ (rowChoice bp ap dv qu r).p5.isSome ∧
        (rowChoice bp ap dv qu r).p6.isSome ∧ (rowChoice bp ap dv qu r).p7.isSome) ∧
      ((best_match_row tables k bp ap dv qu).1.isSome →
        (best_match_row tables k bp ap dv qu).2.1 = some (rowChoice bp ap dv qu r)) ∧
      ((best_match_row tables k bp ap dv qu).1 = none →
        (best_match_row tables k bp ap dv qu).2.1 = none) := by
  have hbmr : best_match_row tables k bp ap dv qu =
      bmrPost t (bmFold (rowScore bp ap dv qu) (rowChoice bp ap dv qu) t.rows (-1) none).2
        (t.rows.map (fun r =>
          ⟨choiceCode t (rowChoice bp ap dv qu r), rowScore bp ap dv qu r,
           rowChoice bp ap dv qu r⟩)) := by
    simp only [best_match_row, hl]
  rcases bmFold_spec (rowScore bp ap dv qu) (rowChoice bp ap dv qu) t.rows (-1) none with
    ⟨hall, _⟩ | ⟨pre, r, post, hdec, _, hpre, hall, heq⟩
  · exfalso
    rcases hrows : t.rows with _ | ⟨r0, rest⟩
    · exact hne hrows
    · have hmem : r0 ∈ t.rows := by
        rw [hrows]
        exact List.mem_cons_self _ _
      have h1 := hall r0 hmem
      omega
  · have hres : best_match_row tables k bp ap dv qu =
        bmrPost t (some (rowChoice bp ap dv qu r))
          (t.rows.map (fun r =>
            ⟨choiceCode t (rowChoice bp ap dv qu r), rowScore bp ap dv qu r,
             rowChoice bp ap dv qu r⟩)) := by
      rw [hbmr, heq]
    refine ⟨pre, r, post, hdec, hpre, hall, ?_, choiceCode_isSome t _, ?_, ?_⟩
    · rcases hcc : choiceCode t (rowChoice bp ap dv qu r) with _ | code
      · rw [hres]
        simp [bmrPost, hcc]
      · rw [hres]
        simp [bmrPost, hcc]
    · intro hsome
      rcases hcc : choiceCode t (rowChoice bp ap dv qu r) with _ | code
      · rw [hres] at hsome
        simp [bmrPost, hcc] at hsome
      · rw [hres]
        simp [bmrPost, hcc]
    · intro hnone
      rcases hcc : choiceCode t (rowChoice bp ap dv qu r) with _ | code
      · rw [hres]
        simp [bmrPost, hcc]
      · rw [hres] at hnone
        simp [bmrPost, hcc] at hnone

/-- C4, witness: the scenario store instantiation. -/
theorem C4_witness :
    ∃ pre r post,
      scenEntry.rows = pre ++ r :: post ∧
      (∀ x ∈ pre, rowScore wGall wPerc none none x < rowScore wGall wPerc none none r) ∧
      (∀ x ∈ scenEntry.rows, rowScore wGall wPerc none none x ≤ rowScore wGall wPerc none none r) ∧
      (best_match_row scenStore (strOf "0FT") wGall wPerc none none).1 =
        choiceCode scenEntry (rowChoice wGall wPerc none none r) ∧
      ((choiceCode scenEntry (rowChoice wGall wPerc none none r)).isSome ↔
        (rowChoice wGall wPerc none none r).p4.isSome ∧
        (rowChoice wGall wPerc none none r).p5.isSome ∧
        (rowChoice wGall wPerc none none r).p6.isSome ∧
        (rowChoice wGall wPerc none none r).p7.isSome) ∧
      ((best_match_row scenStore (strOf "0FT") wGall wPerc none none).1.isSome →
        (best_match_row scenStore (strOf "0FT") wGall wPerc none none).2.1 =
          some (rowChoice wGall wPerc none none r)) ∧
      ((best_match_row scenStore (strOf "0FT") wGall wPerc none none).1 = none →
        (best_match_row scenStore (strOf "0FT") wGall wPerc none none).2.1 = none) :=
  C4_best_row scenStore (strOf "0FT") wGall wPerc none none scenEntry (by decide) (by decide)

/-- C5: the default pick rule with no target name supplied: an option whose
text is exactly No Device is preferred at score 1; otherwise an option
whose text is exactly No Qualifier at score 1; otherwise the first listed
option at score 0 — never a different option at score 0 when a No Device
option is present. -/
theorem C5_pick_defaults (options : List AxisLabel) :
    ((∃ o ∈ options, strEq o.text (strOf "No Device") = true) →
      ∃ o ∈ options, strEq o.text (strOf "No Device") = true ∧
        pick options none = (some o, 1)) ∧
    ((∀ o ∈ options, strEq o.text (strOf "No Device") = false) →
     (∃ o ∈ options, strEq o.text (strOf "No Qualifier") = true) →
      ∃ o ∈ options, strEq o.text (strOf "No Qualifier") = true ∧
        pick options none = (some o, 1)) ∧
    (∀ (o0 : AxisLabel) (rest : List AxisLabel), options = o0 :: rest →
     (∀ o ∈ options, strEq o.text (strOf "No Device") = false) →
     (∀ o ∈ options, strEq o.text (strOf "No Qualifier") = false) →
      pick options none = (some o0, 0)) := by
  refine ⟨?_, ?_, ?_⟩
  · rintro ⟨o, ho, he⟩
    cases options with
    | nil => exact absurd ho (List.not_mem_nil o)
    | cons o0 rest =>
        have hfs : ((o0 :: rest).find? (fun x => strEq x.text (strOf "No Device"))).isSome := by
          rw [List.find?_isSome]
          exact ⟨o, ho, he⟩
        rcases Option.isSome_iff_exists.mp hfs with ⟨o1, h1⟩
        refine ⟨o1, List.mem_of_find?_eq_some h1, ?_, by simp [pick, pyTruthy, h1]⟩
        have h2 := List.find?_some h1
        simpa using h2
  · rintro hnone ⟨o, ho, he⟩
    cases options with
    | nil => exact absurd ho (List.not_mem_nil o)
    | cons o0 rest =>
        have hnd : (o0 :: rest).find? (fun x => strEq x.text (strOf "No Device")) = none := by
          rw [List.find?_eq_none]
          intro x hx
          simp [hnone x hx]
        have hfs : ((o0 :: rest).find? (fun x => strEq x.text (strOf "No Qualifier"))).isSome := by
          rw [List.find?_isSome]
          exact ⟨o, ho, he⟩
        rcases Option.isSome_iff_exists.mp hfs with ⟨o1, h1⟩
        refine ⟨o1, List.mem_of_find?_eq_some h1, ?_, by simp [pick, pyTruthy, hnd, h1]⟩
        have h2 := List.find?_some h1
        simpa using h2
  · intro o0 rest hopt hnd hnq
    subst hopt
    have h1 : (o0 :: rest).find? (fun x => strEq x.text (strOf "No Device")) = none := by
      rw [List.find?_eq_none]
      intro x hx
      simp [hnd x hx]
    have h2 : (o0 :: rest).find? (fun x => strEq x.text (strOf "No Qualifier")) = none := by
      rw [List.find?_eq_none]
      intro x hx
      simp [hnq x hx]
    simp [pick, pyTruthy, h1, h2]

/-- C5, witness: a one-option No Device axis list. -/
theorem C5_witness :
    ∃ o ∈ [AxisLabel.mk (strOf "Z") (strOf "No Device")],
      strEq o.text (strOf "No Device") = true ∧
      pick [AxisLabel.mk (strOf "Z") (strOf "No Device")] none = (some o, 1) :=
  (C5_pick_defaults [⟨strOf "Z", strOf "No Device"⟩]).1 (by decide)

/-- C6: row atomicity: every code returned by best_match_row, and every
candidate code returned by resolve_code, is assembled from four axis labels
drawn from the option lists of one single row of the matched table. -/
theorem C6_row_atomicity :
    (∀ (tables : List (Str × TableEntry)) (k : Str) (bp ap dv qu : Option Str) (code : Str),
      (best_match_row tables k bp ap dv qu).1 = some code →
      ∃ t r o4 o5 o6 o7, lookupA tables k = some t ∧ r ∈ t.rows ∧
        o4 ∈ rowGet r (strOf "4") ∧ o5 ∈ rowGet r (strOf "5") ∧
        o6 ∈ rowGet r (strOf "6") ∧ o7 ∈ rowGet r (strOf "7") ∧
        code = mkCode t o4 o5 o6 o7) ∧
    (∀ (ctx : TablesContext) (sn : Str) (bs ro bp ap dv qu nt : Option Str) (c : Candidate),
      c ∈ (resolve_code ctx sn bs ro bp ap dv qu nt).candidates →
      ∃ tables t r o4 o5 o6 o7, ctx.tables = some tables ∧
        lookupA tables c.root_key = some t ∧ r ∈ t.rows ∧
        o4 ∈ rowGet r (strOf "4") ∧ o5 ∈ rowGet r (strOf "5") ∧
        o6 ∈ rowGet r (strOf "6") ∧ o7 ∈ rowGet r (strOf "7") ∧
        c.pcs_code = mkCode t o4 o5 o6 o7) := by
  constructor
  · intro tables k bp ap dv qu code h
    obtain ⟨t, r, o4, o5, o6, o7, hl, hr, m4, m5, m6, m7, _, _, _, _, hcode, _, _⟩ :=
      bmr_atomic tables k bp ap dv qu code h
    exact ⟨t, r, o4, o5, o6, o7, hl, hr, m4, m5, m6, m7, hcode⟩
  · intro ctx sn bs ro bp ap dv qu nt c hc
    rcases resolve_cases ctx sn bs ro bp ap dv qu nt with ⟨_, heq⟩ | ⟨tables, hl, heq⟩
    · rw [heq] at hc
      exact absurd hc (List.not_mem_nil c)
    · rw [heq] at hc
      have hc2 := List.mem_of_mem_take hc
      have hc3 : c ∈ buildCandidates ctx tables bp dv ap qu (resolveRoots ctx tables bs ro nt) := by
        rcases mem_pySortDesc c (buildCandidates ctx tables bp dv ap qu
            (resolveRoots ctx tables bs ro nt)) [] hc2 with h | h
        · exact absurd h (List.not_mem_nil c)
        · exact h
      rcases mem_buildCandidates ctx tables bp dv ap qu
          (resolveRoots ctx tables bs ro nt) [] c hc3 with h | h
      · exact absurd h (List.not_mem_nil c)
      · obtain ⟨rt, t, code, chosen, alts, hlk, htr, hck⟩ := h
        rcases trialLoop_comes_from tables rt ap qu (trialPairs ctx bp dv) (-1) none
            (code, chosen, alts) htr with h1 | ⟨p, hbmr⟩
        · exact Option.noConfusion h1
        · have hb1 : (best_match_row tables rt p.1 ap p.2 qu).1 = some code := by
            rw [hbmr]
          obtain ⟨t2, r, o4, o5, o6, o7, hl2, hr, m4, m5, m6, m7, _, _, _, _, hcode, _, _⟩ :=
            bmr_atomic tables rt p.1 ap p.2 qu code hb1
          have ht2 : t2 = t := by
            rw [hl2] at hlk
            exact Option.some_inj.mp hlk
          subst ht2
          subst hck
          exact ⟨tables, t2, r, o4, o5, o6, o7, hl, hl2, hr, m4, m5, m6, m7, hcode⟩

/-- C6, witness: the scenario instantiation of both parts. -/
theorem C6_witness :
    (∃ t r o4 o5 o6 o7, lookupA scenStore (strOf "0FT") = some t ∧ r ∈ t.rows ∧
      o4 ∈ rowGet r (strOf "4") ∧ o5 ∈ rowGet r (strOf "5") ∧
      o6 ∈ rowGet r (strOf "6") ∧ o7 ∈ rowGet r (strOf "7") ∧
      strOf "0FT44ZZ" = mkCode t o4 o5 o6 o7) ∧
    (∃ tables t r o4 o5 o6 o7, scenarioCtx.tables = some tables ∧
      lookupA tables scenCandidate.root_key = some t ∧ r ∈ t.rows ∧
      o4 ∈ rowGet r (strOf "4") ∧ o5 ∈ rowGet r (strOf "5") ∧
      o6 ∈ rowGet r (strOf "6") ∧ o7 ∈ rowGet r (strOf "7") ∧
      scenCandidate.pcs_code = mkCode t o4 o5 o6 o7) :=
  ⟨C6_row_atomicity.1 scenStore (strOf "0FT") wGall wPerc none none
      (strOf "0FT44ZZ") (by decide),
   C6_row_atomicity.2 scenarioCtx (strOf "0")
      (some (strOf "Hepatobiliary System and Pancreas")) (some (strOf "Resection"))
      (some (strOf "Gallbladder")) (some (strOf "Percutaneous Endoscopic"))
      none none none scenCandidate (by decide)⟩

/-- C10: every candidate resolve_code returns has score exactly 4 (a
candidate exists only when all four axis picks are present and its score
counts them), and consequently the per-root trial loop degenerates to
keeping the first (body-part, device) trial in iteration order that yields
a code. -/
theorem C10_score_four :
    (∀ (ctx : TablesContext) (sn : Str) (bs ro bp ap dv qu nt : Option Str) (c : Candidate),
      c ∈ (resolve_code ctx sn bs ro bp ap dv qu nt).candidates → c.score = 4) ∧
    (∀ (tables : List (Str × TableEntry)) (rt : Str) (ap qu : Option Str)
      (pairs : List (Option Str × Option Str)),
      trialLoop tables rt ap qu pairs (-1) none =
        pairs.findSome? (trialPick tables rt ap qu)) := by
  constructor
  · intro ctx sn bs ro bp ap dv qu nt c hc
    rcases resolve_cases ctx sn bs ro bp ap dv qu nt with ⟨_, heq⟩ | ⟨tables, _, heq⟩
    · rw [heq] at hc
      exact absurd hc (List.not_mem_nil c)
    · rw [heq] at hc
      have hc2 := List.mem_of_mem_take hc
      have hc3 : c ∈ buildCandidates ctx tables bp dv ap qu (resolveRoots ctx tables bs ro nt) := by
        rcases mem_pySortDesc c (buildCandidates ctx tables bp dv ap qu
            (resolveRoots ctx tables bs ro nt)) [] hc2 with h | h
        · exact absurd h (List.not_mem_nil c)
        · exact h
      rcases mem_buildCandidates ctx tables bp dv ap qu
          (resolveRoots ctx tables bs ro nt) [] c hc3 with h | h
      · exact absurd h (List.not_mem_nil c)
      · obtain ⟨rt, t, code, chosen, alts, hlk, htr, hck⟩ := h
        rcases trialLoop_comes_from tables rt ap qu (trialPairs ctx bp dv) (-1) none
            (code, chosen, alts) htr with h1 | ⟨p, hbmr⟩
        · exact Option.noConfusion h1
        · have hs : choiceScore chosen = 4 :=
            bmr_tuple_score4 tables rt p.1 ap p.2 qu code chosen alts hbmr
          subst hck
          exact hs
  · intro tables rt ap qu pairs
    exact trialLoop_eq_findSome tables rt ap qu pairs

/-- C10, witness: the scenario candidate and a concrete trial list. -/
theorem C10_witness :
    scenCandidate.score = 4 ∧
    trialLoop (pcsParse [scenarioTable]) (strOf "0FT") wPerc none
        [(some (strOf "Gallbladder"), none)] (-1) none =
      [((some (strOf "Gallbladder") : Option Str), (none : Option Str))].findSome?
        (trialPick (pcsParse [scenarioTable]) (strOf "0FT") wPerc none) :=
  ⟨C10_score_four.1 scenarioCtx (strOf "0")
      (some (strOf "Hepatobiliary System and Pancreas")) (some (strOf "Resection"))
      (some (strOf "Gallbladder")) (some (strOf "Percutaneous Endoscopic"))
      none none none scenCandidate (by decide),
   C10_score_four.2 (pcsParse [scenarioTable]) (strOf "0FT") wPerc none
      [(some (strOf "Gallbladder"), none)]⟩

end PCS
